import Mathlib

/-!
Shallow embedding of the style-painting core of the delta repository
(src/paint.rs): the change-range locator (StringPair), the plain/paired
background classifier (set_background_style_sections and its two branches),
the style compositor (explode / superimpose / coalesce) and the terminal
emitter (paint_section).

Modelling conventions:
  - Rust strings are modelled as List Char; a length is a character count
    (the source mixes byte lengths and character counts, which coincide on
    single-byte text; the embedding works on the character grid).
  - The panic inside superimpose is modelled by returning Option.none.
  - Mutable buffer pushes become list construction; the per-pair loop of
    set_background_style_sections_diff_detail becomes structural recursion
    over the zipped line lists.
-/

set_option autoImplicit false

/-- RGBA color as in the external syntect interface (u8 channels modelled
as Nat). -/
structure Color where
  r : Nat
  g : Nat
  b : Nat
  a : Nat
deriving DecidableEq

/-- Font style bitflags, modelled as a plain Nat (its value is never
inspected by the code under verification). -/
abbrev FontStyle := Nat

/-- Fully resolved rendering style: foreground, background, font flags. -/
structure Style where
  foreground : Color
  background : Color
  font_style : FontStyle
deriving DecidableEq

/-- Partial style: each channel is either unset (inherit) or set. -/
structure StyleModifier where
  foreground : Option Color
  background : Option Color
  font_style : Option FontStyle
deriving DecidableEq

/-- Modelled from the spec: the apply operation of the external syntect
collaborator, specified at its interface in the data-model section — each
set channel of the modifier overrides the base style, each unset channel
inherits the base value. -/
def Style.apply (s : Style) (m : StyleModifier) : Style :=
  { foreground := m.foreground.getD s.foreground,
    background := m.background.getD s.background,
    font_style := m.font_style.getD s.font_style }

/-- Modelled from the spec: the configuration fields consumed by the
classifier. The config module is not under src; the spec states the style
modifiers are supplied fully formed by configuration, so they are abstract
values here. -/
structure Config where
  minus_style_modifier : StyleModifier
  minus_emph_style_modifier : StyleModifier
  plus_style_modifier : StyleModifier
  plus_emph_style_modifier : StyleModifier

/-- Embeds StringPair::common_prefix_length (src/paint.rs lines 219 to 232):
walk the two character sequences in lock step, counting matches, stopping at
the first mismatch or at the end of the shorter sequence. -/
def common_prefix_length : List Char → List Char → Nat
  | c0 :: s0, c1 :: s1 => if c0 = c1 then common_prefix_length s0 s1 + 1 else 0
  | _, _ => 0

/-- Embeds StringPair::consume_whitespace (src/paint.rs lines 247 to 260):
consume leading space characters (only the character of code 32), returning
the number consumed together with the remaining sequence, which in Rust is
the state of the iterator after the loop. -/
def consume_whitespace : List Char → Nat × List Char
  | [] => (0, [])
  | c :: s =>
    if c = ' ' then ((consume_whitespace s).1 + 1, (consume_whitespace s).2)
    else (0, c :: s)

/-- Embeds StringPair::suffix_data (src/paint.rs lines 234 to 245): reverse
both strings, consume leading whitespace from each reversed string, then take
the common prefix length of what remains. Returns (common suffix length,
trailing whitespace of s0, trailing whitespace of s1). -/
def suffix_data (s0 s1 : List Char) : Nat × Nat × Nat :=
  let p0 := consume_whitespace s0.reverse
  let p1 := consume_whitespace s1.reverse
  (common_prefix_length p0.2 p1.2, p0.1, p1.1)

/-- Alias used inside the StringPair namespace, where the plain name would
resolve to the structure projection. -/
def cpl_chars : List Char → List Char → Nat := common_prefix_length

/-- Embeds the StringPair struct (src/paint.rs lines 197 to 202). -/
structure StringPair where
  common_prefix_length : Nat
  common_suffix_length : Nat
  lengths : Nat × Nat

/-- Embeds StringPair::new (src/paint.rs lines 205 to 217): the lengths
field holds each string length minus its trailing-whitespace count. -/
def StringPair.new (s0 s1 : List Char) : StringPair :=
  let sd := suffix_data s0 s1
  { common_prefix_length := cpl_chars s0 s1,
    common_suffix_length := sd.1,
    lengths := (s0.length - sd.2.1, s1.length - sd.2.2) }

/-- Convenience wrapper mirroring the repository test helper: the common
suffix length of a pair is the field computed by StringPair::new. -/
def common_suffix_length (s0 s1 : List Char) : Nat :=
  (StringPair.new s0 s1).common_suffix_length

/-- Embeds the change_begin binding of
Painter::set_background_style_sections_diff_detail (src/paint.rs line 143). -/
def change_begin (minus plus : List Char) : Nat :=
  (StringPair.new minus plus).common_prefix_length

/-- Embeds the minus_change_end computation (src/paint.rs lines 150 and 159
to 162): max(max(trimmed length, common prefix length) - common suffix
length, change_begin). Nat subtraction is used; the no-underflow fact is
proved separately. -/
def minus_change_end (minus plus : List Char) : Nat :=
  let sp := StringPair.new minus plus
  max (max sp.lengths.1 sp.common_prefix_length - sp.common_suffix_length)
    sp.common_prefix_length

/-- Embeds the plus_change_end computation (src/paint.rs lines 151 and 163). -/
def plus_change_end (minus plus : List Char) : Nat :=
  let sp := StringPair.new minus plus
  max (max sp.lengths.2 sp.common_prefix_length - sp.common_suffix_length)
    sp.common_prefix_length

/-- Embeds the minus-side 3-span push (src/paint.rs lines 165 to 178): the
Rust slice s[a..b] is modelled as (take b, then drop a) on the character
list. -/
def minus_sections (cfg : Config) (minus plus : List Char) :
    List (StyleModifier × List Char) :=
  [(cfg.minus_style_modifier, minus.take (change_begin minus plus)),
   (cfg.minus_emph_style_modifier,
     (minus.take (minus_change_end minus plus)).drop (change_begin minus plus)),
   (cfg.minus_style_modifier, minus.drop (minus_change_end minus plus))]

/-- Embeds the plus-side 3-span push (src/paint.rs lines 179 to 192). -/
def plus_sections (cfg : Config) (minus plus : List Char) :
    List (StyleModifier × List Char) :=
  [(cfg.plus_style_modifier, plus.take (change_begin minus plus)),
   (cfg.plus_emph_style_modifier,
     (plus.take (plus_change_end minus plus)).drop (change_begin minus plus)),
   (cfg.plus_style_modifier, plus.drop (plus_change_end minus plus))]

/-- Embeds the loop of Painter::set_background_style_sections_diff_detail
(src/paint.rs lines 140 to 194): iterate over zipped minus and plus lines,
pushing one 3-span list per line onto each output list. -/
def set_background_style_sections_diff_detail (cfg : Config) :
    List (List Char) → List (List Char) →
    List (List (StyleModifier × List Char)) ×
      List (List (StyleModifier × List Char))
  | m :: ms, p :: ps =>
    let rest := set_background_style_sections_diff_detail cfg ms ps
    (minus_sections cfg m p :: rest.1, plus_sections cfg m p :: rest.2)
  | _, _ => ([], [])

/-- Embeds Painter::set_background_style_sections_plain (src/paint.rs lines
101 to 110): one whole-line span per line, with the uniform minus or plus
modifier. -/
def set_background_style_sections_plain (cfg : Config)
    (minus_lines plus_lines : List (List Char)) :
    List (List (StyleModifier × List Char)) ×
      List (List (StyleModifier × List Char)) :=
  (minus_lines.map fun l => [(cfg.minus_style_modifier, l)],
   plus_lines.map fun l => [(cfg.plus_style_modifier, l)])

/-- Embeds Painter::set_background_style_sections (src/paint.rs lines 93 to
99): the diff-detail branch is taken exactly when the buffered minus and
plus line counts are equal. -/
def set_background_style_sections (cfg : Config)
    (minus_lines plus_lines : List (List Char)) :
    List (List (StyleModifier × List Char)) ×
      List (List (StyleModifier × List Char)) :=
  if minus_lines.length = plus_lines.length then
    set_background_style_sections_diff_detail cfg minus_lines plus_lines
  else
    set_background_style_sections_plain cfg minus_lines plus_lines

/-- Embeds explode (src/paint.rs lines 300 to 311): expand every span into
one (style, char) pair per character, preserving order. -/
def explode {α : Type} : List (α × List Char) → List (α × Char)
  | [] => []
  | (s, cs) :: rest => (cs.map fun c => (s, c)) ++ explode rest

/-- Embeds superimpose (src/paint.rs lines 313 to 327). The Rust function
panics when the two characters of a zipped pair differ; the panic is
modelled as Option.none. On matching characters the modifier is applied on
top of the base style. -/
def superimpose :
    List ((Style × Char) × (StyleModifier × Char)) → Option (List (Style × Char))
  | [] => some []
  | ((s, c1), (m, c2)) :: rest =>
    if c1 = c2 then (superimpose rest).map fun l => (Style.apply s m, c1) :: l
    else none

/-- Helper for coalesce, embedding the loop state of src/paint.rs lines 332
to 345: cur is current_style, acc is current_string. -/
def coalesce_go (cur : Style) (acc : List Char) :
    List (Style × Char) → List (Style × List Char)
  | [] => [(cur, acc)]
  | (s, c) :: rest =>
    if s ≠ cur then (cur, acc) :: coalesce_go s [c] rest
    else coalesce_go cur (acc ++ [c]) rest

/-- Embeds coalesce (src/paint.rs lines 329 to 349): merge consecutive
characters sharing an identical style into one span. -/
def coalesce : List (Style × Char) → List (Style × List Char)
  | [] => []
  | (s, c) :: rest => coalesce_go s [c] rest

/-- Embeds superimpose_style_sections (src/paint.rs lines 288 to 298):
explode both inputs, zip them, superimpose, coalesce. The Option propagates
the modelled panic of superimpose. -/
def superimpose_style_sections (sections_1 : List (Style × List Char))
    (sections_2 : List (StyleModifier × List Char)) :
    Option (List (Style × List Char)) :=
  (superimpose ((explode sections_1).zip (explode sections_2))).map coalesce

/-- Concatenation of the text segments of a span sequence. -/
def sections_text {α : Type} (l : List (α × List Char)) : List Char :=
  (l.map Prod.snd).flatten

/-- Modelled from the spec: the no-color sentinel style::NO_COLOR lives in
the style module, which is not under src. The spec only requires a
distinguished Color value whose presence suppresses emission of that
channel, so it is modelled as a fixed constant; no theorem depends on the
concrete value. -/
def NO_COLOR : Color := { r := 0, g := 0, b := 0, a := 0 }

/-- Embeds paint_section (src/paint.rs lines 264 to 283) over character
lists: each write-macro call appends one rendered chunk to the output
buffer. The numeric fields are rendered in decimal as in the Rust display
format. -/
def paint_section (text : List Char) (style : Style) (output_buffer : List Char) :
    List Char :=
  let buf1 :=
    if style.background = NO_COLOR then output_buffer
    else output_buffer ++
      ("\x1b[48;2;".toList ++ (toString style.background.r).toList ++ [';'] ++
       (toString style.background.g).toList ++ [';'] ++
       (toString style.background.b).toList ++ ['m'])
  if style.foreground = NO_COLOR then buf1 ++ text
  else buf1 ++
    ("\x1b[38;2;".toList ++ (toString style.foreground.r).toList ++ [';'] ++
     (toString style.foreground.g).toList ++ [';'] ++
     (toString style.foreground.b).toList ++ ['m'] ++ text)

/-- Concrete configuration used by witnesses. -/
def cfg0 : Config :=
  { minus_style_modifier := { foreground := none, background := none, font_style := none },
    minus_emph_style_modifier :=
      { foreground := some { r := 1, g := 1, b := 1, a := 1 }, background := none,
        font_style := none },
    plus_style_modifier := { foreground := none, background := none, font_style := none },
    plus_emph_style_modifier :=
      { foreground := some { r := 2, g := 2, b := 2, a := 2 }, background := none,
        font_style := none } }

/-- Concrete style used by witnesses: all channels the zero color. -/
def style0 : Style :=
  { foreground := { r := 0, g := 0, b := 0, a := 0 },
    background := { r := 0, g := 0, b := 0, a := 0 }, font_style := 0 }

/-- Concrete modifier used by witnesses: every channel unset. -/
def mod0 : StyleModifier :=
  { foreground := none, background := none, font_style := none }

/-- Second concrete style used by witnesses, distinct from style0. -/
def style1 : Style :=
  { foreground := { r := 9, g := 9, b := 9, a := 0 },
    background := { r := 0, g := 0, b := 0, a := 0 }, font_style := 0 }


/-! ### Helper lemmas on the locator -/

theorem common_prefix_length_le_left :
    ∀ a b : List Char, common_prefix_length a b ≤ a.length := by
  intro a
  induction a with
  | nil => intro b; cases b <;> simp [common_prefix_length]
  | cons c0 s0 ih =>
    intro b
    cases b with
    | nil => simp [common_prefix_length]
    | cons c1 s1 =>
      by_cases h : c0 = c1
      · simp only [common_prefix_length, if_pos h, List.length_cons]
        exact Nat.succ_le_succ (ih s1)
      · simp [common_prefix_length, if_neg h]

theorem common_prefix_length_le_right :
    ∀ a b : List Char, common_prefix_length a b ≤ b.length := by
  intro a
  induction a with
  | nil => intro b; cases b <;> simp [common_prefix_length]
  | cons c0 s0 ih =>
    intro b
    cases b with
    | nil => simp [common_prefix_length]
    | cons c1 s1 =>
      by_cases h : c0 = c1
      · simp only [common_prefix_length, if_pos h, List.length_cons]
        exact Nat.succ_le_succ (ih s1)
      · simp [common_prefix_length, if_neg h]

theorem consume_whitespace_eq (s : List Char) :
    consume_whitespace s =
      ((s.takeWhile fun c => c = ' ').length, s.dropWhile fun c => c = ' ') := by
  induction s with
  | nil => rfl
  | cons c s ih =>
    by_cases h : c = ' '
    · simp [consume_whitespace, if_pos h, List.takeWhile_cons, List.dropWhile_cons, h, ih]
    · simp [consume_whitespace, if_neg h, List.takeWhile_cons, List.dropWhile_cons, h]

theorem consume_whitespace_count_add_rest (s : List Char) :
    (consume_whitespace s).1 + (consume_whitespace s).2.length = s.length := by
  induction s with
  | nil => rfl
  | cons c s ih =>
    by_cases h : c = ' '
    · simp only [consume_whitespace, if_pos h, List.length_cons]
      omega
    · simp [consume_whitespace, if_neg h]

theorem csl_le_trimmed_left (s0 s1 : List Char) :
    (StringPair.new s0 s1).common_suffix_length ≤ (StringPair.new s0 s1).lengths.1 := by
  have h := consume_whitespace_count_add_rest s0.reverse
  have hle := common_prefix_length_le_left
    (consume_whitespace s0.reverse).2 (consume_whitespace s1.reverse).2
  simp only [StringPair.new, suffix_data, List.length_reverse] at *
  omega

theorem csl_le_trimmed_right (s0 s1 : List Char) :
    (StringPair.new s0 s1).common_suffix_length ≤ (StringPair.new s0 s1).lengths.2 := by
  have h := consume_whitespace_count_add_rest s1.reverse
  have hle := common_prefix_length_le_right
    (consume_whitespace s0.reverse).2 (consume_whitespace s1.reverse).2
  simp only [StringPair.new, suffix_data, List.length_reverse] at *
  omega

theorem trimmed_le_len_left (s0 s1 : List Char) :
    (StringPair.new s0 s1).lengths.1 ≤ s0.length := by
  simp only [StringPair.new, suffix_data]
  omega

theorem trimmed_le_len_right (s0 s1 : List Char) :
    (StringPair.new s0 s1).lengths.2 ≤ s1.length := by
  simp only [StringPair.new, suffix_data]
  omega

theorem cpl_new_eq (s0 s1 : List Char) :
    (StringPair.new s0 s1).common_prefix_length = common_prefix_length s0 s1 := rfl

theorem change_begin_le_minus_change_end (m p : List Char) :
    change_begin m p ≤ minus_change_end m p :=
  Nat.le_max_right _ _

theorem change_begin_le_plus_change_end (m p : List Char) :
    change_begin m p ≤ plus_change_end m p :=
  Nat.le_max_right _ _

theorem minus_change_end_le_len (m p : List Char) :
    minus_change_end m p ≤ m.length := by
  have h1 := trimmed_le_len_left m p
  have h2 := common_prefix_length_le_left m p
  have h3 := cpl_new_eq m p
  simp only [minus_change_end]
  omega

theorem plus_change_end_le_len (m p : List Char) :
    plus_change_end m p ≤ p.length := by
  have h1 := trimmed_le_len_right m p
  have h2 := common_prefix_length_le_right m p
  have h3 := cpl_new_eq m p
  simp only [plus_change_end]
  omega

theorem cpl_first_difference :
    ∀ a b : List Char,
      (∀ i, i < common_prefix_length a b → a[i]? = b[i]?) ∧
      (common_prefix_length a b = min a.length b.length ∨
        (common_prefix_length a b < min a.length b.length ∧
          a[common_prefix_length a b]? ≠ b[common_prefix_length a b]?)) := by
  intro a
  induction a with
  | nil =>
    intro b
    refine ⟨fun i hi => absurd hi (by cases b <;> simp [common_prefix_length]), ?_⟩
    left
    cases b <;> simp [common_prefix_length]
  | cons c0 s0 ih =>
    intro b
    cases b with
    | nil =>
      refine ⟨fun i hi => absurd hi (by simp [common_prefix_length]), ?_⟩
      left
      simp [common_prefix_length]
    | cons c1 s1 =>
      by_cases h : c0 = c1
      · obtain ⟨ih1, ih2⟩ := ih s1
        constructor
        · intro i hi
          cases i with
          | zero => simp [h]
          | succ j =>
            simp only [common_prefix_length, if_pos h] at hi
            simpa using ih1 j (by omega)
        · cases ih2 with
          | inl he =>
            left
            simp [common_prefix_length, if_pos h, he, Nat.succ_min_succ]
          | inr hd =>
            right
            simp only [common_prefix_length, if_pos h, List.length_cons,
              Nat.succ_min_succ, List.getElem?_cons_succ]
            exact ⟨by omega, hd.2⟩
      · constructor
        · intro i hi
          simp [common_prefix_length, if_neg h] at hi
        · right
          simp only [common_prefix_length, if_neg h, List.length_cons,
            Nat.succ_min_succ, List.getElem?_cons_zero]
          exact ⟨by omega, by simpa using h⟩

/-- C9: for all strings a and b, the common prefix length is at most
min(len a, len b); characters agree at every index below it; and it is
either the shorter length (one string is a prefix of the other, or they are
equal) or the first index at which the characters differ. The two literal
scenarios of the spec are included. -/
theorem c9_common_prefix_length_spec :
    (∀ a b : List Char,
      common_prefix_length a b ≤ min a.length b.length ∧
      (∀ i, i < common_prefix_length a b → a[i]? = b[i]?) ∧
      (common_prefix_length a b = min a.length b.length ∨
        (common_prefix_length a b < min a.length b.length ∧
          a[common_prefix_length a b]? ≠ b[common_prefix_length a b]?))) ∧
    common_prefix_length ['a', 'b'] ['a', 'b', 'a'] = 2 ∧
    common_prefix_length [' ', 'a'] ['a'] = 0 := by
  refine ⟨fun a b => ?_, by decide, by decide⟩
  obtain ⟨h1, h2⟩ := cpl_first_difference a b
  exact ⟨Nat.le_min.mpr ⟨common_prefix_length_le_left a b,
    common_prefix_length_le_right a b⟩, h1, h2⟩

/-- Witness for C9: instantiates the agreement clause on a concrete pair of
strings at a concrete index. -/
theorem c9_witness :
    (['a', 'b'] : List Char)[0]? = (['a', 'c'] : List Char)[0]? :=
  (c9_common_prefix_length_spec.1 ['a', 'b'] ['a', 'c']).2.1 0 (by decide)

/-- C1: for every removed/added line pair, the computed change offsets are
well formed: change_begin is at most each change end, each change end is at
most the line length, and the subtraction in each change-end computation
never underflows because the common suffix length is at most
max(trimmed length, common prefix length) on each side. -/
theorem c1_change_range_clamped (minus plus : List Char) :
    change_begin minus plus ≤ minus_change_end minus plus ∧
    minus_change_end minus plus ≤ minus.length ∧
    change_begin minus plus ≤ plus_change_end minus plus ∧
    plus_change_end minus plus ≤ plus.length ∧
    (StringPair.new minus plus).common_suffix_length ≤
      max (StringPair.new minus plus).lengths.1
        (StringPair.new minus plus).common_prefix_length ∧
    (StringPair.new minus plus).common_suffix_length ≤
      max (StringPair.new minus plus).lengths.2
        (StringPair.new minus plus).common_prefix_length := by
  refine ⟨change_begin_le_minus_change_end minus plus,
    minus_change_end_le_len minus plus,
    change_begin_le_plus_change_end minus plus,
    plus_change_end_le_len minus plus, ?_, ?_⟩
  · exact le_trans (csl_le_trimmed_left minus plus) (Nat.le_max_left _ _)
  · exact le_trans (csl_le_trimmed_right minus plus) (Nat.le_max_left _ _)

theorem dropWhile_space_replicate (n : Nat) (x : List Char) :
    ((List.replicate n ' ' ++ x).dropWhile fun c => c = ' ') =
      x.dropWhile fun c => c = ' ' := by
  induction n with
  | zero => simp
  | succ k ih => simp [List.replicate_succ, List.dropWhile_cons, ih]

/-- C8: the common suffix length of two strings is the common prefix length
of their reversals after stripping leading spaces from each reversal, that
is, it is computed over both strings with trailing space characters removed
first; consequently appending trailing spaces to a string never changes it.
Only the space character is stripped: a trailing tab is compared literally,
as the third literal scenario shows. The two literal scenarios of the spec
are included. -/
theorem c8_common_suffix_length_spec :
    (∀ a b : List Char,
      common_suffix_length a b =
        common_prefix_length (a.reverse.dropWhile fun c => c = ' ')
          (b.reverse.dropWhile fun c => c = ' ') ∧
      (∀ n, common_suffix_length (a ++ List.replicate n ' ') b =
        common_suffix_length a b) ∧
      (∀ n, common_suffix_length a (b ++ List.replicate n ' ') =
        common_suffix_length a b)) ∧
    common_suffix_length ['a'] ['a', 'b'] = 0 ∧
    common_suffix_length ['a', 'b', ' ', ' '] ['b', ' '] = 1 ∧
    common_suffix_length ['a', '\t'] ['a', '\t'] = 2 ∧
    common_suffix_length ['a', '\t'] ['a'] = 0 := by
  have key : ∀ a b : List Char,
      common_suffix_length a b =
        common_prefix_length (a.reverse.dropWhile fun c => c = ' ')
          (b.reverse.dropWhile fun c => c = ' ') := by
    intro a b
    simp [common_suffix_length, StringPair.new, suffix_data, consume_whitespace_eq]
  refine ⟨fun a b => ⟨key a b, fun n => ?_, fun n => ?_⟩, by decide, by decide,
    by decide, by decide⟩
  · rw [key, key a b, List.reverse_append, List.reverse_replicate,
      dropWhile_space_replicate]
  · rw [key, key a b, List.reverse_append, List.reverse_replicate,
      dropWhile_space_replicate]

/-- Counterexample for C3: on the input pair minus = "a    " and
plus = "a b  ", the change range does not start at 1: the common prefix is
the letter a followed by one space, so change_begin = 2; moreover the minus
change end, 2, exceeds the trimmed minus length, 1, so the range is not
within trimmed bounds either. -/
theorem c3_counterexample :
    change_begin ['a', ' ', ' ', ' ', ' '] ['a', ' ', 'b', ' ', ' '] ≠ 1 ∧
    change_begin ['a', ' ', ' ', ' ', ' '] ['a', ' ', 'b', ' ', ' '] = 2 ∧
    ¬ (minus_change_end ['a', ' ', ' ', ' ', ' '] ['a', ' ', 'b', ' ', ' '] ≤
        (StringPair.new ['a', ' ', ' ', ' ', ' '] ['a', ' ', 'b', ' ', ' ']).lengths.1) := by
  decide

/-- C3 (amended): for minus = "a    " and plus = "a b  ", the change range
starts at change_begin = common_prefix_length = 2, the minus change end is
clamped to change_begin giving the empty range [2, 2), the plus change end
is 3, and both ranges are non-negative and lie within the raw line lengths
(the minus end exceeds the trimmed length 1, which is why the code takes
max(trimmed length, prefix length) before subtracting). -/
theorem c3_amended :
    change_begin ['a', ' ', ' ', ' ', ' '] ['a', ' ', 'b', ' ', ' '] = 2 ∧
    minus_change_end ['a', ' ', ' ', ' ', ' '] ['a', ' ', 'b', ' ', ' '] = 2 ∧
    plus_change_end ['a', ' ', ' ', ' ', ' '] ['a', ' ', 'b', ' ', ' '] = 3 ∧
    change_begin ['a', ' ', ' ', ' ', ' '] ['a', ' ', 'b', ' ', ' '] ≤
      minus_change_end ['a', ' ', ' ', ' ', ' '] ['a', ' ', 'b', ' ', ' '] ∧
    minus_change_end ['a', ' ', ' ', ' ', ' '] ['a', ' ', 'b', ' ', ' '] ≤ 5 ∧
    change_begin ['a', ' ', ' ', ' ', ' '] ['a', ' ', 'b', ' ', ' '] ≤
      plus_change_end ['a', ' ', ' ', ' ', ' '] ['a', ' ', 'b', ' ', ' '] ∧
    plus_change_end ['a', ' ', ' ', ' ', ' '] ['a', ' ', 'b', ' ', ' '] ≤ 5 := by
  decide

theorem take_slice_drop_recompose (l : List Char) (a b : Nat) (hab : a ≤ b) :
    l.take a ++ ((l.take b).drop a ++ l.drop b) = l := by
  have h1 : l.take a = (l.take b).take a := by
    rw [List.take_take, Nat.min_eq_left hab]
  rw [h1, ← List.append_assoc, List.take_append_drop, List.take_append_drop]

/-- C5: for every removed/added line pair in the paired branch, each of the
two produced span lists has exactly three spans, their text segments
re-concatenate to exactly the original line, and when change_begin equals
the change end the middle span is still produced and carries the emphasis
modifier with empty text. -/
theorem c5_three_span_recompose (cfg : Config) (minus plus : List Char) :
    (minus_sections cfg minus plus).length = 3 ∧
    sections_text (minus_sections cfg minus plus) = minus ∧
    (plus_sections cfg minus plus).length = 3 ∧
    sections_text (plus_sections cfg minus plus) = plus ∧
    (change_begin minus plus = minus_change_end minus plus →
      (minus_sections cfg minus plus)[1]? =
        some (cfg.minus_emph_style_modifier, ([] : List Char))) ∧
    (change_begin minus plus = plus_change_end minus plus →
      (plus_sections cfg minus plus)[1]? =
        some (cfg.plus_emph_style_modifier, ([] : List Char))) := by
  refine ⟨rfl, ?_, rfl, ?_, ?_, ?_⟩
  · simp only [minus_sections, sections_text, List.map_cons, List.map_nil,
      List.flatten, List.append_nil]
    exact take_slice_drop_recompose minus _ _ (change_begin_le_minus_change_end minus plus)
  · simp only [plus_sections, sections_text, List.map_cons, List.map_nil,
      List.flatten, List.append_nil]
    exact take_slice_drop_recompose plus _ _ (change_begin_le_plus_change_end minus plus)
  · intro h
    simp only [minus_sections, List.getElem?_cons_succ, List.getElem?_cons_zero,
      Option.some.injEq, Prod.mk.injEq, true_and]
    rw [← h, List.drop_take, Nat.sub_self, List.take_zero]
  · intro h
    simp only [plus_sections, List.getElem?_cons_succ, List.getElem?_cons_zero,
      Option.some.injEq, Prod.mk.injEq, true_and]
    rw [← h, List.drop_take, Nat.sub_self, List.take_zero]


/-- Witness for C5: on the identical pair "a"/"a" the change range is empty
and the middle emphasis span is still produced, with empty text. -/
theorem c5_witness :
    (minus_sections cfg0 ['a'] ['a'])[1]? =
      some (cfg0.minus_emph_style_modifier, ([] : List Char)) :=
  (c5_three_span_recompose cfg0 ['a'] ['a']).2.2.2.2.1 (by decide)

theorem diff_detail_eq_map_zip (cfg : Config) :
    ∀ ml pl : List (List Char),
      set_background_style_sections_diff_detail cfg ml pl =
        ((ml.zip pl).map fun q => minus_sections cfg q.1 q.2,
         (ml.zip pl).map fun q => plus_sections cfg q.1 q.2) := by
  intro ml
  induction ml with
  | nil => intro pl; rfl
  | cons m ms ih =>
    intro pl
    cases pl with
    | nil => rfl
    | cons p ps =>
      simp [set_background_style_sections_diff_detail, ih ps, List.zip_cons_cons]

/-- C6: when the buffered minus and plus line counts differ, every line gets
a single whole-line span carrying the uniform minus or plus modifier; when
the counts are equal, minus line i is paired with plus line i in buffer
order and each line of a pair gets the three-span sequence — prefix at the
normal modifier, the change range at the emphasis modifier, the rest at the
normal modifier again. -/
theorem c6_plain_vs_paired (cfg : Config) (ml pl : List (List Char)) :
    set_background_style_sections cfg ml pl =
      if ml.length = pl.length then
        ((ml.zip pl).map fun q =>
          [(cfg.minus_style_modifier, q.1.take (change_begin q.1 q.2)),
           (cfg.minus_emph_style_modifier,
             (q.1.take (minus_change_end q.1 q.2)).drop (change_begin q.1 q.2)),
           (cfg.minus_style_modifier, q.1.drop (minus_change_end q.1 q.2))],
         (ml.zip pl).map fun q =>
          [(cfg.plus_style_modifier, q.2.take (change_begin q.1 q.2)),
           (cfg.plus_emph_style_modifier,
             (q.2.take (plus_change_end q.1 q.2)).drop (change_begin q.1 q.2)),
           (cfg.plus_style_modifier, q.2.drop (plus_change_end q.1 q.2))])
      else
        (ml.map fun l => [(cfg.minus_style_modifier, l)],
         pl.map fun l => [(cfg.plus_style_modifier, l)]) := by
  by_cases h : ml.length = pl.length
  · rw [if_pos h]
    simp only [set_background_style_sections, if_pos h, diff_detail_eq_map_zip,
      minus_sections, plus_sections]
  · rw [if_neg h]
    simp only [set_background_style_sections, if_neg h,
      set_background_style_sections_plain]

/-! ### Helper lemmas on the compositor -/

theorem explode_map_snd {α : Type} :
    ∀ l : List (α × List Char), (explode l).map Prod.snd = sections_text l := by
  intro l
  induction l with
  | nil => rfl
  | cons q rest ih =>
    obtain ⟨s, cs⟩ := q
    simp [explode, sections_text, List.map_map, Function.comp, ih,
      List.map_append]

theorem superimpose_of_eq_snd :
    ∀ (l1 : List (Style × Char)) (l2 : List (StyleModifier × Char)),
      l1.map Prod.snd = l2.map Prod.snd →
      ∃ out, superimpose (l1.zip l2) = some out ∧
        out.map Prod.snd = l1.map Prod.snd := by
  intro l1
  induction l1 with
  | nil => intro l2 _; exact ⟨[], rfl, rfl⟩
  | cons q1 rest1 ih =>
    intro l2 h
    obtain ⟨s, c1⟩ := q1
    cases l2 with
    | nil => simp at h
    | cons q2 rest2 =>
      obtain ⟨m, c2⟩ := q2
      simp only [List.map_cons, List.cons.injEq] at h
      obtain ⟨hc, hrest⟩ := h
      obtain ⟨out, hout, hsnd⟩ := ih rest2 hrest
      refine ⟨(Style.apply s m, c1) :: out, ?_, ?_⟩
      · rw [List.zip_cons_cons]
        simp only [superimpose, if_pos hc]
        rw [hout]
        rfl
      · simp [hsnd]

theorem coalesce_go_text :
    ∀ (rest : List (Style × Char)) (cur : Style) (acc : List Char),
      sections_text (coalesce_go cur acc rest) = acc ++ rest.map Prod.snd := by
  intro rest
  induction rest with
  | nil => intro cur acc; simp [coalesce_go, sections_text]
  | cons q rest ih =>
    intro cur acc
    obtain ⟨s, c⟩ := q
    by_cases h : s = cur
    · simp only [coalesce_go, h, ne_eq, not_true_eq_false, if_false, ih,
        List.map_cons]
      simp
    · have hne : (s ≠ cur) = True := by simp [h]
      simp only [coalesce_go, hne, if_true, sections_text, List.map_cons,
        List.flatten]
      have := ih s [c]
      simp [sections_text] at this
      simp [this]

theorem coalesce_text (l : List (Style × Char)) :
    sections_text (coalesce l) = l.map Prod.snd := by
  cases l with
  | nil => rfl
  | cons q rest =>
    obtain ⟨s, c⟩ := q
    simp [coalesce, coalesce_go_text]

/-- C4: whenever the two input span sequences describe identical text, the
merge succeeds and concatenating the text segments of the output of
superimpose_style_sections reproduces the original line exactly. -/
theorem c4_round_trip (sections_1 : List (Style × List Char))
    (sections_2 : List (StyleModifier × List Char))
    (h : sections_text sections_1 = sections_text sections_2) :
    ∃ out, superimpose_style_sections sections_1 sections_2 = some out ∧
      sections_text out = sections_text sections_1 := by
  have he : (explode sections_1).map Prod.snd = (explode sections_2).map Prod.snd := by
    rw [explode_map_snd, explode_map_snd, h]
  obtain ⟨mid, hmid, hsnd⟩ := superimpose_of_eq_snd (explode sections_1)
    (explode sections_2) he
  refine ⟨coalesce mid, ?_, ?_⟩
  · simp [superimpose_style_sections, hmid]
  · rw [coalesce_text, hsnd, explode_map_snd]


/-- Witness for C4: merging two sequences that both describe the text ab
succeeds, with the output text reproducing the line. -/
theorem c4_witness :
    (superimpose_style_sections [(style0, ['a', 'b'])]
      [(mod0, ['a']), (mod0, ['b'])]).isSome = true := by
  obtain ⟨out, h1, _⟩ := c4_round_trip [(style0, ['a', 'b'])]
    [(mod0, ['a']), (mod0, ['b'])] (by decide)
  rw [h1]
  rfl

theorem superimpose_none_of_mismatch :
    ∀ l : List ((Style × Char) × (StyleModifier × Char)),
      (∃ q ∈ l, q.1.2 ≠ q.2.2) → superimpose l = none := by
  intro l
  induction l with
  | nil => intro h; simp at h
  | cons q rest ih =>
    intro h
    obtain ⟨⟨s, c1⟩, ⟨m, c2⟩⟩ := q
    by_cases hc : c1 = c2
    · have : ∃ p ∈ rest, p.1.2 ≠ p.2.2 := by
        obtain ⟨p, hp, hne⟩ := h
        rcases List.mem_cons.mp hp with hp1 | hp2
        · exact absurd hc (by simpa [hp1] using hne)
        · exact ⟨p, hp2, hne⟩
      simp [superimpose, if_pos hc, ih this]
    · simp [superimpose, if_neg hc]

/-- Counterexample for C2: the two inputs describe the texts ab and a,
which differ in length, yet the merge silently returns a result describing
only the one-character common prefix — the Rust zip truncates to the
shorter exploded list, so a pure length difference is not detected. -/
theorem c2_counterexample :
    sections_text [(style0, ['a', 'b'])] ≠ sections_text [(mod0, ['a'])] ∧
    superimpose_style_sections [(style0, ['a', 'b'])] [(mod0, ['a'])] =
      some [(style0, ['a'])] := by
  decide

/-- C2 (amended): if the two exploded character lists disagree at any
position of the zipped common length, the merge fails fast (the modelled
panic, Option.none) rather than returning a result; a pure length
difference, however, where one exploded list is a proper prefix of the
other, is silently truncated by zip and does produce a result. -/
theorem c2_amended (sections_1 : List (Style × List Char))
    (sections_2 : List (StyleModifier × List Char))
    (h : ∃ q ∈ (explode sections_1).zip (explode sections_2), q.1.2 ≠ q.2.2) :
    superimpose_style_sections sections_1 sections_2 = none := by
  simp [superimpose_style_sections, superimpose_none_of_mismatch _ h]

/-- Witness for C2 (amended): merging spans describing ab against spans
describing ac aborts at the differing second character. -/
theorem c2_witness :
    superimpose_style_sections [(style0, ['a', 'b'])] [(mod0, ['a', 'c'])] = none :=
  c2_amended [(style0, ['a', 'b'])] [(mod0, ['a', 'c'])] (by decide)

theorem coalesce_go_cons_ne (cur s : Style) (acc : List Char) (c : Char)
    (rest : List (Style × Char)) (h : s ≠ cur) :
    coalesce_go cur acc ((s, c) :: rest) = (cur, acc) :: coalesce_go s [c] rest := by
  simp [coalesce_go, if_pos h]

theorem coalesce_go_cons_eq (cur : Style) (acc : List Char) (c : Char)
    (rest : List (Style × Char)) :
    coalesce_go cur acc ((cur, c) :: rest) = coalesce_go cur (acc ++ [c]) rest := by
  simp [coalesce_go]

theorem coalesce_cons (s : Style) (c : Char) (rest : List (Style × Char)) :
    coalesce ((s, c) :: rest) = coalesce_go s [c] rest := rfl

theorem coalesce_go_head :
    ∀ (rest : List (Style × Char)) (cur : Style) (acc : List Char),
      ∃ t tail, coalesce_go cur acc rest = (cur, t) :: tail := by
  intro rest
  induction rest with
  | nil => intro cur acc; exact ⟨acc, [], rfl⟩
  | cons q rest ih =>
    intro cur acc
    obtain ⟨s, c⟩ := q
    by_cases h : s = cur
    · subst h
      rw [coalesce_go_cons_eq]
      exact ih s (acc ++ [c])
    · rw [coalesce_go_cons_ne cur s acc c rest h]
      exact ⟨acc, coalesce_go s [c] rest, rfl⟩

theorem coalesce_go_chain :
    ∀ (rest : List (Style × Char)) (cur : Style) (acc : List Char),
      List.Chain' (fun x y => x.1 ≠ y.1) (coalesce_go cur acc rest) := by
  intro rest
  induction rest with
  | nil => intro cur acc; simp [coalesce_go]
  | cons q rest ih =>
    intro cur acc
    obtain ⟨s, c⟩ := q
    by_cases h : s = cur
    · subst h
      rw [coalesce_go_cons_eq]
      exact ih s (acc ++ [c])
    · rw [coalesce_go_cons_ne cur s acc c rest h]
      obtain ⟨t, tail, heq⟩ := coalesce_go_head rest s [c]
      rw [heq, List.chain'_cons]
      exact ⟨fun hcs => h hcs.symm, heq ▸ ih s [c]⟩

theorem coalesce_go_absorb :
    ∀ (cs : List Char) (rest : List (Style × Char)) (cur : Style) (acc : List Char),
      coalesce_go cur acc ((cs.map fun c => (cur, c)) ++ rest) =
        coalesce_go cur (acc ++ cs) rest := by
  intro cs
  induction cs with
  | nil => intro rest cur acc; simp
  | cons c cs ih =>
    intro rest cur acc
    rw [List.map_cons, List.cons_append, coalesce_go_cons_eq, ih,
      List.append_assoc, List.singleton_append]

theorem coalesce_go_explode :
    ∀ (rest : List (Style × List Char)) (cur : Style) (acc : List Char),
      (∀ q ∈ rest, q.2 ≠ []) →
      List.Chain' (fun x y => x.1 ≠ y.1) ((cur, acc) :: rest) →
      coalesce_go cur acc (explode rest) = (cur, acc) :: rest := by
  intro rest
  induction rest with
  | nil => intro cur acc _ _; rfl
  | cons q rest ih =>
    intro cur acc hne hchain
    obtain ⟨s2, cs2⟩ := q
    have hcs2 : cs2 ≠ [] := hne (s2, cs2) (List.mem_cons_self _ _)
    obtain ⟨c, cs2p, rfl⟩ := List.exists_cons_of_ne_nil hcs2
    have hcur : cur ≠ s2 := (List.chain'_cons.mp hchain).1
    show coalesce_go cur acc
      (((c :: cs2p).map fun x => (s2, x)) ++ explode rest) = _
    rw [List.map_cons, List.cons_append,
      coalesce_go_cons_ne cur s2 acc c _ (fun h => hcur h.symm),
      coalesce_go_absorb cs2p (explode rest) s2 [c], List.singleton_append,
      ih s2 (c :: cs2p) (fun p hp => hne p (List.mem_cons_of_mem _ hp))
        (List.chain'_cons.mp hchain).2]

/-- C7: the compositor output is a minimal run-length encoding — no two
adjacent spans of a coalesce output share an identical style; coalescing an
already-minimal span sequence (adjacent styles distinct, no empty span
text) returns it unchanged; and merging one syntax span over the text ab
with two emphasis spans carrying the same modifier, split a then b, yields
the single coalesced span over ab with the modifier applied — the
segmentation difference does not leak into the output. -/
theorem c7_minimal_rle :
    (∀ l : List (Style × Char),
      List.Chain' (fun x y => x.1 ≠ y.1) (coalesce l)) ∧
    (∀ S : List (Style × List Char),
      List.Chain' (fun x y => x.1 ≠ y.1) S → (∀ q ∈ S, q.2 ≠ []) →
      coalesce (explode S) = S) ∧
    (∀ (s : Style) (m : StyleModifier),
      superimpose_style_sections [(s, ['a', 'b'])] [(m, ['a']), (m, ['b'])] =
        some [(Style.apply s m, ['a', 'b'])]) := by
  refine ⟨?_, ?_, ?_⟩
  · intro l
    cases l with
    | nil => simp [coalesce]
    | cons q rest =>
      obtain ⟨s, c⟩ := q
      exact coalesce_go_chain rest s [c]
  · intro S hchain hne
    cases S with
    | nil => rfl
    | cons q rest =>
      obtain ⟨s, cs⟩ := q
      have hcs : cs ≠ [] := hne (s, cs) (List.mem_cons_self _ _)
      obtain ⟨c, csp, rfl⟩ := List.exists_cons_of_ne_nil hcs
      show coalesce (((c :: csp).map fun x => (s, x)) ++ explode rest) = _
      rw [List.map_cons, List.cons_append, coalesce_cons,
        coalesce_go_absorb csp (explode rest) s [c], List.singleton_append,
        coalesce_go_explode rest s (c :: csp)
          (fun p hp => hne p (List.mem_cons_of_mem _ hp)) hchain]
  · intro s m
    have hne : ¬ (Style.apply s m ≠ Style.apply s m) := by simp
    simp [superimpose_style_sections, explode, superimpose, coalesce,
      coalesce_go, if_neg hne]


/-- Witness for C7: re-coalescing the already-minimal two-span sequence
over distinct styles returns it unchanged. -/
theorem c7_witness :
    coalesce (explode [(style0, ['a']), (style1, ['b'])]) =
      [(style0, ['a']), (style1, ['b'])] :=
  c7_minimal_rle.2.1 [(style0, ['a']), (style1, ['b'])]
    (List.chain'_pair.mpr (by decide)) (by decide)

/-- C10: for every span, the emitter appends exactly the following to the
output buffer: nothing for the background channel when the background is
the no-color sentinel, otherwise the truecolor background escape with that
RGB triple; then, when the foreground is the no-color sentinel, the raw
text with no foreground escape, otherwise the truecolor foreground escape
immediately followed by the text. No reset code appears: the appended
output is exactly this concatenation and nothing more. -/
theorem c10_emitter_wire_format (text : List Char) (style : Style)
    (output_buffer : List Char) :
    paint_section text style output_buffer =
      output_buffer ++
        ((if style.background = NO_COLOR then []
          else "\x1b[48;2;".toList ++ (toString style.background.r).toList ++
            [';'] ++ (toString style.background.g).toList ++ [';'] ++
            (toString style.background.b).toList ++ ['m']) ++
         (if style.foreground = NO_COLOR then text
          else "\x1b[38;2;".toList ++ (toString style.foreground.r).toList ++
            [';'] ++ (toString style.foreground.g).toList ++ [';'] ++
            (toString style.foreground.b).toList ++ ['m'] ++ text)) := by
  by_cases hb : style.background = NO_COLOR <;>
    by_cases hf : style.foreground = NO_COLOR <;>
      simp [paint_section, hb, hf, List.append_assoc]
